import Mathlib

/-!
Verification development for `maze2mesh` (src/maze2mesh.cpp): a shallow
embedding of the grid loader, box/plane synthesizers, tile-scan aggregator
and serializers, with theorems settling the specification claims.

Modelling conventions:
* bytes are `Nat` (the C `unsigned char` / `char` values);
* a text input is the list of lines exactly as `getline` delivers them,
  i.e. each element is the byte string of one line, trailing newline
  byte (10) included (line-oriented reading itself is an external
  collaborator per the spec);
* `float` coordinates are embedded as `ℚ`: every coordinate the program
  computes is a small integer (cube corners 0, 1, -1 translated by integer
  offsets) or one of the two sentinel constants, all exactly representable
  in `float`, so rational arithmetic is exact for them;
* the sentinels `std::numeric_limits<float>::max/lowest` are the exact
  rational values of `FLT_MAX` and `-FLT_MAX`.
-/

namespace Maze2Mesh

/-- Exact value of `std::numeric_limits<float>::max()` (`FLT_MAX`). -/
def f_max : ℚ := 2 ^ 128 - 2 ^ 104

/-- Exact value of `std::numeric_limits<float>::lowest()` (`-FLT_MAX`). -/
def f_min : ℚ := -(2 ^ 128 - 2 ^ 104)

/-- Embedding of `struct Vertex { float x,y,z; }`. -/
structure Vertex where
  x : ℚ
  y : ℚ
  z : ℚ
deriving DecidableEq

/-- Embedding of `using BBox = Vertex[2]`: `bmin` is `bbox[0]`, `bmax` is `bbox[1]`. -/
structure BBox where
  bmin : Vertex
  bmax : Vertex
deriving DecidableEq

/-- Embedding of `struct Mesh`: name, vertex buffer, index buffer, bounding box. -/
structure Mesh where
  name : String
  vertices : List Vertex
  indeces : List Nat
  bbox : BBox
deriving DecidableEq

/-- The `Mesh` default constructor: empty buffers, bbox initialised to
`{ f_max, f_max, f_max }, { f_min, f_min, f_min }` (sentinel box). -/
def mkMesh (name : String) : Mesh :=
  ⟨name, [], [], ⟨⟨f_max, f_max, f_max⟩, ⟨f_min, f_min, f_min⟩⟩⟩

/-- The tile grid part of `struct Maze`: width, height, row-major byte buffer. -/
structure MazeGrid where
  w : Nat
  h : Nat
  data : List Nat
deriving DecidableEq

/-! ## Grid loader (`load_maze`) -/

/-- C `strlen`: number of bytes before the first NUL. -/
def strlen (l : List Nat) : Nat := (l.takeWhile (fun b => b != 0)).length

/-- The skip test of both loader passes:
`if (!line || !*line || *line == ';') continue;` — the line is skipped when
its first byte is NUL (0) or a semicolon (59). -/
def line_skipped (l : List Nat) : Bool :=
  match l.head? with
  | none => true
  | some b => b == 0 || b == 59

/-- Pass 1 of `load_maze`: fold computing `max_w` and `max_h` over the
non-skipped lines, where a line contributes `strlen(line) - 1` to the width
(`int len = (int)strlen(line) - 1; if (len > max_w) max_w = len; ++max_h;`). -/
def pass1 (mw mh : Nat) : List (List Nat) → Nat × Nat
  | [] => (mw, mh)
  | l :: ls =>
    if line_skipped l then pass1 mw mh ls
    else pass1 (if strlen l - 1 > mw then strlen l - 1 else mw) (mh + 1) ls

/-- Byte-wise `memcpy(&buf[idx], bytes, bytes.length)` into a list buffer. -/
def storeBytes : List Nat → Nat → List Nat → List Nat
  | buf, _, [] => buf
  | buf, idx, b :: bs => storeBytes (buf.set idx b) (idx + 1) bs

/-- Pass 2 of `load_maze`: copy each non-skipped line's first
`strlen(line) - 1` bytes to the current row offset, then advance the offset
by the row stride `map.w`. -/
def pass2 (w : Nat) : List Nat → Nat → List (List Nat) → List Nat
  | buf, _, [] => buf
  | buf, idx, l :: ls =>
    if line_skipped l then pass2 w buf idx ls
    else pass2 w (storeBytes buf idx (l.take (strlen l - 1))) (idx + w) ls

/-- The loader `load_maze`: pass 1 sizes the grid, the buffer is zero-filled with
`map.data.assign(max_w * max_h, 0)`, pass 2 fills the rows. -/
def load_maze (lines : List (List Nat)) : MazeGrid :=
  let p := pass1 0 0 lines
  ⟨p.1, p.2, pass2 p.1 (List.replicate (p.1 * p.2) 0) 0 lines⟩

/-! ## Box synthesizer (`add_box_at`) -/

/-- The `const int scale = 1` used by both synthesizers, as it enters the
float arithmetic. -/
def box_scale : ℚ := 1

/-- The fixed unit-cube vertex table `boxverts` of `add_box_at`. -/
def boxverts : List Vertex :=
  [⟨1, 1, -1⟩, ⟨1, 0, -1⟩, ⟨1, 1, 0⟩, ⟨1, 0, 0⟩,
   ⟨0, 1, -1⟩, ⟨0, 0, -1⟩, ⟨0, 1, 0⟩, ⟨0, 0, 0⟩]

/-- The fixed cube index pattern `boxind` of `add_box_at` (36 entries). -/
def boxind : List Nat :=
  [4, 2, 0, 2, 7, 3,
   6, 5, 7, 1, 7, 5,
   0, 3, 1, 4, 1, 5,
   4, 6, 2, 2, 6, 7,
   6, 4, 5, 1, 3, 7,
   0, 2, 3, 4, 0, 1]

/-- The per-vertex transform of `add_box_at`:
`v *= scale; v.x += (x - map.w/2) * scale; v.z += (y - map.h/2) * scale;`
(`map.w/2` is truncating C integer division, here `Nat` division). -/
def transformVert (w h x y : Nat) (v : Vertex) : Vertex :=
  ⟨v.x * box_scale + ((x : ℚ) - ((w / 2 : Nat) : ℚ)) * box_scale,
   v.y * box_scale,
   v.z * box_scale + ((y : ℚ) - ((h / 2 : Nat) : ℚ)) * box_scale⟩

/-- The bounding-box update block of `add_box_at`, verbatim:
each component of `bbox[0]` is lowered to the vertex when the vertex is
smaller, each component of `bbox[1]` raised when it is larger. -/
def bbox_insert (bb : BBox) (v : Vertex) : BBox :=
  ⟨⟨if v.x < bb.bmin.x then v.x else bb.bmin.x,
    if v.y < bb.bmin.y then v.y else bb.bmin.y,
    if v.z < bb.bmin.z then v.z else bb.bmin.z⟩,
   ⟨if v.x > bb.bmax.x then v.x else bb.bmax.x,
    if v.y > bb.bmax.y then v.y else bb.bmax.y,
    if v.z > bb.bmax.z then v.z else bb.bmax.z⟩⟩

/-- One iteration of the vertex loop of `add_box_at`: update the bounding
box, then `mesh.vertices.push_back(v)`. -/
def insertVertex (m : Mesh) (v : Vertex) : Mesh :=
  { m with bbox := bbox_insert m.bbox v, vertices := m.vertices ++ [v] }

/-- The box synthesizer `add_box_at(map, x, y, mesh)`: record `base_vrt = mesh.vertices.size()`,
run the vertex loop (transform, bbox update, append) over `boxverts`, then
append `base_vrt + i` for each `i` in `boxind`. -/
def add_box_at (w h x y : Nat) (mesh : Mesh) : Mesh :=
  let base := mesh.vertices.length
  let m1 := (boxverts.map (transformVert w h x y)).foldl insertVertex mesh
  { m1 with indeces := m1.indeces ++ boxind.map (fun i => base + i) }

/-! ## Plane synthesizer (`add_bbox_plane`) -/

/-- The fixed quad index pattern `rectidx` of `add_bbox_plane`. -/
def rect_idx : List Nat := [0, 1, 3, 1, 2, 3]

/-- The plane synthesizer `add_bbox_plane(mesh, bbox, ypos)`: four corners at the given `ypos`
taken from the box's min/max X and Z, scaled by `scale = 1` and appended;
indices are `rectidx` offset by `base_vrt`.  Note: this function does not
touch `mesh.bbox` in the source. -/
def add_bbox_plane (mesh : Mesh) (bb : BBox) (ypos : ℚ) : Mesh :=
  let base := mesh.vertices.length
  let rectverts : List Vertex :=
    [⟨bb.bmax.x, ypos, bb.bmax.z⟩, ⟨bb.bmax.x, ypos, bb.bmin.z⟩,
     ⟨bb.bmin.x, ypos, bb.bmin.z⟩, ⟨bb.bmin.x, ypos, bb.bmax.z⟩]
  let scaled := rectverts.map
    (fun v => ⟨v.x * box_scale, v.y * box_scale, v.z * box_scale⟩)
  { mesh with
    vertices := mesh.vertices ++ scaled,
    indeces := mesh.indeces ++ rect_idx.map (fun i => base + i) }

/-! ## Aggregator scan (`main`, tile loop) -/

/-- The cell index expression the scan actually computes:
`int idx = j * map.h + i;` (note: `map.h`, not `map.w`). -/
def scan_index (g : MazeGrid) (i j : Nat) : Nat := j * g.h + i

/-- One iteration of the tile loop of `main`: read `map.data[idx]` and
dispatch: `'*'` (42) → box into the maze mesh; `' '` (32) → nothing;
`'A'..'Z'` (65..90) → box into the houses mesh; otherwise optionally zero
the tile.  An out-of-range read (undefined behaviour in the C++ source) is
modelled as reading byte 0, which generates no geometry. -/
def scanCell (zero : Bool) (st : MazeGrid × Mesh × Mesh) (c : Nat × Nat) :
    MazeGrid × Mesh × Mesh :=
  let g := st.1
  let idx := scan_index g c.1 c.2
  let b := (g.data[idx]?).getD 0
  if b = 42 then (g, add_box_at g.w g.h c.1 c.2 st.2.1, st.2.2)
  else if b = 32 then st
  else if 65 ≤ b ∧ b ≤ 90 then (g, st.2.1, add_box_at g.w g.h c.1 c.2 st.2.2)
  else if zero then ({ g with data := g.data.set idx 0 }, st.2.1, st.2.2)
  else st

/-- The row-major cell traversal order of the scan:
`for j in [0,h) { for i in [0,w) { ... } }`, cells as `(i, j)` pairs. -/
def cells (w h : Nat) : List (Nat × Nat) :=
  ((List.range h).map (fun j => (List.range w).map (fun i => (i, j)))).flatten

/-- The full tile scan of `main`, starting from freshly constructed
`maze` and `houses` meshes (their names assigned just before the loop). -/
def runScan (zero : Bool) (g : MazeGrid) : MazeGrid × Mesh × Mesh :=
  (cells g.w g.h).foldl (scanCell zero) (g, mkMesh "maze", mkMesh "houses")

/-- The `struct Maze` after geometry synthesis: grid plus the four meshes. -/
structure Scene where
  grid : MazeGrid
  maze : Mesh
  houses : Mesh
  floor : Mesh
  ceiling : Mesh
deriving DecidableEq

/-- The body of `main` up to geometry synthesis: load-free part — scan the grid, then
(`do_floor`) add the floor plane from the maze bbox at its min-Y and
(`do_ceil`) the ceiling plane at its max-Y.  A disabled plane mesh stays
default-constructed (empty, unnamed), as in the source. -/
def buildScene (lines : List (List Nat)) (zero fl ce : Bool) : Scene :=
  let g := load_maze lines
  let r := runScan zero g
  let floorMesh :=
    if fl then add_bbox_plane (mkMesh "floor") r.2.1.bbox r.2.1.bbox.bmin.y
    else mkMesh ""
  let ceilMesh :=
    if ce then add_bbox_plane (mkMesh "ceiling") r.2.1.bbox r.2.1.bbox.bmax.y
    else mkMesh ""
  ⟨r.1, r.2.1, r.2.2, floorMesh, ceilMesh⟩

/-! ## Serializers -/

/-- One line of the text mesh output: the fixed header comment, an
`o name` block opener, a `v x y z` vertex line, the `s 0` smoothing marker,
or an `f a b c` face line (numeral formatting is external). -/
inductive ObjLine where
  | header
  | objname (name : String)
  | vert (x y z : ℚ)
  | smooth (g : Nat)
  | face (a b c : Nat)
deriving DecidableEq

/-- The face loop of `write_mesh`: indices taken three at a time, each
printed as `1 + total_vertex_count + mesh.indeces[i + k]`. -/
def faceLines (base : Nat) : List Nat → List ObjLine
  | a :: b :: c :: rest =>
    ObjLine.face (1 + base + a) (1 + base + b) (1 + base + c) :: faceLines base rest
  | _ => []

/-- The serializer `write_mesh(f, mesh, total_vertex_count)`: an empty mesh returns at
once (no output, offset untouched); otherwise the object block is emitted
and the running offset advanced by the mesh's vertex count.  Returns the
emitted lines and the new offset. -/
def write_mesh (mesh : Mesh) (total : Nat) : List ObjLine × Nat :=
  if mesh.vertices.length = 0 then ([], total)
  else
    (ObjLine.objname mesh.name ::
       (mesh.vertices.map (fun v => ObjLine.vert v.x v.y v.z)
        ++ [ObjLine.smooth 0] ++ faceLines total mesh.indeces),
     total + mesh.vertices.length)

/-- The serializer `write_map_obj`: header comment, then the four sub-meshes in the fixed
order maze, houses, floor, ceiling, threading `total_vertex_count`. -/
def write_map_obj (s : Scene) : List ObjLine :=
  let r1 := write_mesh s.maze 0
  let r2 := write_mesh s.houses r1.2
  let r3 := write_mesh s.floor r2.2
  let r4 := write_mesh s.ceiling r3.2
  ObjLine.header :: (r1.1 ++ r2.1 ++ r3.1 ++ r4.1)

/-- A native-endian (little-endian) 4-byte encoding of an `int32`, as
produced by `fwrite(&map.w, sizeof(map.w), 1, f)`. -/
def int32le (n : Nat) : List Nat :=
  [n % 256, n / 256 % 256, n / 65536 % 256, n / 16777216 % 256]

/-- The tilemap writing block of `main`: `fwrite` of `map.w`, then `map.h`,
then the raw `map.data` bytes — nothing else. -/
def write_tilemap (g : MazeGrid) : List Nat :=
  int32le g.w ++ int32le g.h ++ g.data

/-! ## Top level (`main`) -/

/-- A diagnostic on the error stream: `fprintf(stderr, fmt, path, strerror(errno))`
for the load, tilemap-write and mesh-write failure sites. -/
inductive ErrMsg where
  | loadError (path reason : String)
  | tilemapError (path reason : String)
  | meshError (path reason : String)
deriving DecidableEq

/-- Observable outcome of a run of `main`: process exit code, diagnostics
printed to stderr, and the two output files (absent when not written). -/
structure RunResult where
  exitCode : Nat
  errors : List ErrMsg
  tilemap : Option (List Nat)
  obj : Option (List ObjLine)
deriving DecidableEq

/-- The whole of `main`, with the input file abstracted to `none` (the `fopen` in
`load_maze` failed) or `some lines`.  On load failure: print the
`Error loading map` diagnostic with the path and `strerror(errno)` and
`return EXIT_FAILURE` (1) before anything else happens.  Otherwise run the
pipeline and write the outputs (the optimizer pass is the external
collaborator and does not change what is modelled here; output-open
failures are not modelled). -/
def main_run (input : Option (List (List Nat))) (path reason : String)
    (do_write_tilemap do_zero fl ce : Bool) : RunResult :=
  match input with
  | none => ⟨1, [ErrMsg.loadError path reason], none, none⟩
  | some lines =>
    let s := buildScene lines do_zero fl ce
    let tm := if do_write_tilemap then some (write_tilemap s.grid) else none
    ⟨0, [], tm, some (write_map_obj s)⟩

/-! ## Claim-side definitions

Definitions in this section follow the wording of the specification (not
the source); each is named `claim_...` and is only compared against the
source-derived definitions above. -/

/-- The geometry target a tile byte dispatches to in the scan's `switch`:
`'*'` → maze mesh, `'A'..'Z'` → houses mesh, anything else (including
space) → no geometry. -/
inductive TileTarget where
  | intoMaze
  | intoHouses
  | nothing
deriving DecidableEq

/-- The dispatch function of the scan's `switch` statement, on a byte. -/
def dispatchByte (b : Nat) : TileTarget :=
  if b = 42 then TileTarget.intoMaze
  else if 65 ≤ b ∧ b ≤ 90 then TileTarget.intoHouses
  else TileTarget.nothing

/-- Claim C1's cell index: the row-major index `j * w + i` the spec says
the scan dispatches on. -/
def claim_scan_index (g : MazeGrid) (i j : Nat) : Nat := j * g.w + i

/-- Claim C3's skip rule: a line is skipped when it begins with `';'` or is
empty (its newline-trimmed content has no bytes). -/
def claim_line_skipped (l : List Nat) : Bool :=
  l.head? == some 59 || l.dropLast == []

/-- Claim C3's height: the number of non-skipped lines under
`claim_line_skipped`. -/
def claim_h (lines : List (List Nat)) : Nat :=
  (lines.filter (fun l => !(claim_line_skipped l))).length

/-- The trimmed data rows of claim C3 as amended: keep every line that
does not begin with `';'` (59), drop each line's trailing newline. -/
def trimmed_rows (lines : List (List Nat)) : List (List Nat) :=
  (lines.filter (fun l => l.head? != some 59)).map List.dropLast

/-- The loader width as amended: maximum trimmed row length, folded as the
source folds it (accumulator starts at 0). -/
def row_w (rows : List (List Nat)) : Nat :=
  rows.foldl (fun acc r => if r.length > acc then r.length else acc) 0

/-- Zero-pad a row on the right to width `w`. -/
def padRow (w : Nat) (r : List Nat) : List Nat :=
  r ++ List.replicate (w - r.length) 0

/-- Claim C3 as amended, as a loader: `w` is the maximum trimmed length of
the kept lines, `h` their count, and the buffer is the kept rows each
zero-padded to `w`, concatenated in order. -/
def load_maze_amended (lines : List (List Nat)) : MazeGrid :=
  ⟨row_w (trimmed_rows lines), (trimmed_rows lines).length,
   ((trimmed_rows lines).map (padRow (row_w (trimmed_rows lines)))).flatten⟩

/-- A well-formed text input, as `getline` delivers it: every line is
nonempty, ends with the newline byte 10, and its content before the newline
contains neither NUL nor newline bytes. -/
def goodLines (lines : List (List Nat)) : Prop :=
  ∀ l ∈ lines, l ≠ [] ∧ l.getLast? = some 10 ∧ ∀ b ∈ l.dropLast, b ≠ 0 ∧ b ≠ 10

instance (lines : List (List Nat)) : Decidable (goodLines lines) := by
  unfold goodLines
  infer_instance

/-- The reference shape of the pass-2 row-filling loop, directly on the
trimmed rows. -/
def fill_rows (w : Nat) : List Nat → Nat → List (List Nat) → List Nat
  | buf, _, [] => buf
  | buf, idx, r :: rs => fill_rows w (storeBytes buf idx r) (idx + w) rs

/-- Minimum of a list of rationals (0 for the empty list). -/
def listMinQ : List ℚ → ℚ
  | [] => 0
  | a :: r => r.foldl (fun acc q => if q < acc then q else acc) a

/-- Maximum of a list of rationals (0 for the empty list). -/
def listMaxQ : List ℚ → ℚ
  | [] => 0
  | a :: r => r.foldl (fun acc q => if q > acc then q else acc) a

/-- The world X offset `(x - map.w/2) * scale` applied by `add_box_at`. -/
def tile_off_x (w x : Nat) : ℚ := ((x : ℚ) - ((w / 2 : Nat) : ℚ)) * box_scale

/-- The world Z offset `(y - map.h/2) * scale` applied by `add_box_at`. -/
def tile_off_z (h y : Nat) : ℚ := ((y : ℚ) - ((h / 2 : Nat) : ℚ)) * box_scale

/-- The amended claim's placement: the eight cube vertices `add_box_at`
appends for tile `(x, y)`, written out with their world coordinates. -/
def amended_box_verts (w h x y : Nat) : List Vertex :=
  [⟨tile_off_x w x + 1, 1, tile_off_z h y - 1⟩,
   ⟨tile_off_x w x + 1, 0, tile_off_z h y - 1⟩,
   ⟨tile_off_x w x + 1, 1, tile_off_z h y⟩,
   ⟨tile_off_x w x + 1, 0, tile_off_z h y⟩,
   ⟨tile_off_x w x, 1, tile_off_z h y - 1⟩,
   ⟨tile_off_x w x, 0, tile_off_z h y - 1⟩,
   ⟨tile_off_x w x, 1, tile_off_z h y⟩,
   ⟨tile_off_x w x, 0, tile_off_z h y⟩]

/-- Splitting an index buffer into consecutive triples, the claim's reading
of the face loop (`for (i = 0; i < size; i += 3)` reading entries `i`,
`i+1`, `i+2`). -/
def triples : List Nat → List (Nat × Nat × Nat)
  | a :: b :: c :: rest => (a, b, c) :: triples rest
  | _ => []

/-- Claim C6's object block for one sub-mesh at a given running offset: an
empty sub-mesh yields nothing; otherwise the name line, the vertex lines,
the smoothing marker and one face line per index triple, each index written
as `1 + offset + local`. -/
def claim_block (mesh : Mesh) (offset : Nat) : List ObjLine :=
  if mesh.vertices.length = 0 then []
  else
    ObjLine.objname mesh.name ::
      (mesh.vertices.map (fun v => ObjLine.vert v.x v.y v.z)
       ++ [ObjLine.smooth 0]
       ++ (triples mesh.indeces).map
            (fun t => ObjLine.face (1 + offset + t.1) (1 + offset + t.2.1)
              (1 + offset + t.2.2)))

/-- A 3×2 input: the rows `"   "` and `"  *"` (as getline lines, newline
included).  Its grid is `w = 3`, `h = 2`, `data = [32,32,32,32,32,42]`. -/
def mazeInputA : List (List Nat) := [[32, 32, 32, 10], [32, 32, 42, 10]]

/-- A 1×2 input: the rows `"*"` and `"*"`.  Grid `w = 1`, `h = 2`,
`data = [42, 42]`. -/
def mazeInputB : List (List Nat) := [[42, 10], [42, 10]]

/-! ## Claim theorems -/

/-- Claim C1 (code divergence).  On the 3×2 grid with a single `'*'` at
cell `(i,j) = (2,1)` (row-major index `j*w+i = 5`), the claim says the scan
dispatches that cell on byte `'*'` and synthesizes a box into the maze
sub-mesh.  The code computes `idx = j*map.h + i = 4` there, reads a space,
and emits nothing; indeed its full scan leaves both the maze and the houses
sub-meshes empty, so the `'*'` tile is never dispatched at all. -/
theorem scan_index_mismatch :
    (load_maze mazeInputA).w = 3 ∧ (load_maze mazeInputA).h = 2 ∧
    claim_scan_index (load_maze mazeInputA) 2 1 = 5 ∧
    (load_maze mazeInputA).data[claim_scan_index (load_maze mazeInputA) 2 1]? = some 42 ∧
    dispatchByte 42 = TileTarget.intoMaze ∧
    scan_index (load_maze mazeInputA) 2 1 = 4 ∧
    (load_maze mazeInputA).data[scan_index (load_maze mazeInputA) 2 1]? = some 32 ∧
    dispatchByte 32 = TileTarget.nothing ∧
    (buildScene mazeInputA false false false).maze.vertices.length = 0 ∧
    (buildScene mazeInputA false false false).houses.vertices.length = 0 := by
  decide

/-- Claim C2 (code divergence).  On a 1×2 grid the scan's index for cell
`(0,1)` is `j*map.h + i = 2`, which is not `< w*h = 2`: the buffer access
is out of bounds and the Option-returning lookup hits the out-of-bounds
branch (the C++ source reads past the end of `map.data`). -/
theorem scan_index_out_of_bounds :
    (load_maze mazeInputB).w = 1 ∧ (load_maze mazeInputB).h = 2 ∧
    (load_maze mazeInputB).data.length =
      (load_maze mazeInputB).w * (load_maze mazeInputB).h ∧
    scan_index (load_maze mazeInputB) 0 1 = 2 ∧
    ¬ (scan_index (load_maze mazeInputB) 0 1 <
        (load_maze mazeInputB).w * (load_maze mazeInputB).h) ∧
    (load_maze mazeInputB).data[scan_index (load_maze mazeInputB) 0 1]? = none := by
  decide

/-! Helper lemmas about the vertex-insertion fold of `add_box_at`. -/

theorem foldl_insertVertex_vertices (l : List Vertex) :
    ∀ m : Mesh, (l.foldl insertVertex m).vertices = m.vertices ++ l := by
  induction l with
  | nil => intro m; simp
  | cons v t ih => intro m; simp [ih, insertVertex]

theorem foldl_insertVertex_indeces (l : List Vertex) :
    ∀ m : Mesh, (l.foldl insertVertex m).indeces = m.indeces := by
  induction l with
  | nil => intro m; rfl
  | cons v t ih => intro m; simp [ih, insertVertex]

/-- Claim C7 (confirmed).  Every `add_box_at` call appends exactly 8
vertices and exactly 36 index entries; the appended indices are the fixed
cube pattern `boxind` offset by the pre-call vertex count, and every
pattern entry is in `0..7` (no cross-tile vertex sharing). -/
theorem add_box_at_counts (w h x y : Nat) (mesh : Mesh) :
    (add_box_at w h x y mesh).vertices.length = mesh.vertices.length + 8 ∧
    (add_box_at w h x y mesh).indeces =
      mesh.indeces ++ boxind.map (fun i => mesh.vertices.length + i) ∧
    (add_box_at w h x y mesh).indeces.length = mesh.indeces.length + 36 ∧
    boxind.length = 36 ∧ ∀ i ∈ boxind, i < 8 := by
  refine ⟨?_, ?_, ?_, by decide, by decide⟩
  · simp only [add_box_at, foldl_insertVertex_vertices]
    simp [boxverts]
  · simp only [add_box_at, foldl_insertVertex_indeces]
  · simp only [add_box_at, foldl_insertVertex_indeces, List.length_append,
      List.length_map]
    simp [boxind]

/-- Claim C5 (counterexample).  `add_bbox_plane` inserts vertices without
tightening the target's bounding box: after inserting its 4 vertices into a
fresh floor mesh the bounding box is still the sentinel box, which does not
satisfy `min ≤ max` and does not cover the inserted vertices. -/
theorem add_bbox_plane_no_tighten :
    0 < (add_bbox_plane (mkMesh "floor") ⟨⟨0, 0, 0⟩, ⟨1, 1, 1⟩⟩ 0).vertices.length ∧
    ¬ ((add_bbox_plane (mkMesh "floor") ⟨⟨0, 0, 0⟩, ⟨1, 1, 1⟩⟩ 0).bbox.bmin.x ≤
       (add_bbox_plane (mkMesh "floor") ⟨⟨0, 0, 0⟩, ⟨1, 1, 1⟩⟩ 0).bbox.bmax.x) := by
  constructor
  · decide
  · simp only [add_bbox_plane, mkMesh, f_max, f_min]
    norm_num

/-- Claim C5 (amended).  Each vertex insertion performed by box synthesis
(`insertVertex`, the loop body of `add_box_at`) tightens the bounding box
component-wise before appending the vertex: each min component is
non-increasing and covers the new vertex, each max component is
non-decreasing and covers it, and afterwards `min ≤ max` holds
component-wise.  Plane synthesis (`add_bbox_plane`), by contrast, appends
its vertices with the target's bounding box left exactly unchanged. -/
theorem insert_tightens_plane_does_not (m : Mesh) (v : Vertex) (bb : BBox) (yq : ℚ) :
    (insertVertex m v).vertices = m.vertices ++ [v] ∧
    (insertVertex m v).bbox.bmin.x ≤ m.bbox.bmin.x ∧
    (insertVertex m v).bbox.bmin.y ≤ m.bbox.bmin.y ∧
    (insertVertex m v).bbox.bmin.z ≤ m.bbox.bmin.z ∧
    m.bbox.bmax.x ≤ (insertVertex m v).bbox.bmax.x ∧
    m.bbox.bmax.y ≤ (insertVertex m v).bbox.bmax.y ∧
    m.bbox.bmax.z ≤ (insertVertex m v).bbox.bmax.z ∧
    (insertVertex m v).bbox.bmin.x ≤ v.x ∧ v.x ≤ (insertVertex m v).bbox.bmax.x ∧
    (insertVertex m v).bbox.bmin.y ≤ v.y ∧ v.y ≤ (insertVertex m v).bbox.bmax.y ∧
    (insertVertex m v).bbox.bmin.z ≤ v.z ∧ v.z ≤ (insertVertex m v).bbox.bmax.z ∧
    (insertVertex m v).bbox.bmin.x ≤ (insertVertex m v).bbox.bmax.x ∧
    (insertVertex m v).bbox.bmin.y ≤ (insertVertex m v).bbox.bmax.y ∧
    (insertVertex m v).bbox.bmin.z ≤ (insertVertex m v).bbox.bmax.z ∧
    (add_bbox_plane m bb yq).bbox = m.bbox := by
  refine ⟨rfl, ?_, ?_, ?_, ?_, ?_, ?_, ?_, ?_, ?_, ?_, ?_, ?_, ?_, ?_, ?_, rfl⟩ <;>
    simp only [insertVertex, bbox_insert] <;> split_ifs <;> linarith

/-- The fold inside `listMinQ` returns any value that occurs among its
arguments and bounds them all from below. -/
theorem foldl_if_min_eq (r : List ℚ) :
    ∀ acc a : ℚ, (a = acc ∨ a ∈ r) → a ≤ acc → (∀ b ∈ r, a ≤ b) →
      r.foldl (fun acc q => if q < acc then q else acc) acc = a := by
  induction r with
  | nil =>
    intro acc a hmem hle _
    rcases hmem with rfl | habs
    · rfl
    · cases habs
  | cons q r ih =>
    intro acc a hmem hle hlb
    simp only [List.foldl_cons]
    have hq : a ≤ q := hlb q (List.mem_cons_self q r)
    have hlb' : ∀ b ∈ r, a ≤ b := fun b hb => hlb b (List.mem_cons_of_mem q hb)
    by_cases hc : q < acc
    · rw [if_pos hc]
      refine ih q a ?_ hq hlb'
      rcases hmem with rfl | hm
      · left; linarith
      · rcases List.mem_cons.mp hm with rfl | hm2
        · left; rfl
        · right; exact hm2
    · rw [if_neg hc]
      refine ih acc a ?_ hle hlb'
      rcases hmem with rfl | hm
      · left; rfl
      · rcases List.mem_cons.mp hm with rfl | hm2
        · left; linarith
        · right; exact hm2

/-- The fold inside `listMaxQ` returns any value that occurs among its
arguments and bounds them all from above. -/
theorem foldl_if_max_eq (r : List ℚ) :
    ∀ acc a : ℚ, (a = acc ∨ a ∈ r) → acc ≤ a → (∀ b ∈ r, b ≤ a) →
      r.foldl (fun acc q => if q > acc then q else acc) acc = a := by
  induction r with
  | nil =>
    intro acc a hmem hle _
    rcases hmem with rfl | habs
    · rfl
    · cases habs
  | cons q r ih =>
    intro acc a hmem hle hlb
    simp only [List.foldl_cons]
    have hq : q ≤ a := hlb q (List.mem_cons_self q r)
    have hlb' : ∀ b ∈ r, b ≤ a := fun b hb => hlb b (List.mem_cons_of_mem q hb)
    by_cases hc : q > acc
    · rw [if_pos hc]
      refine ih q a ?_ hq hlb'
      rcases hmem with rfl | hm
      · left; linarith
      · rcases List.mem_cons.mp hm with rfl | hm2
        · left; rfl
        · right; exact hm2
    · rw [if_neg hc]
      refine ih acc a ?_ hle hlb'
      rcases hmem with rfl | hm
      · left; rfl
      · rcases List.mem_cons.mp hm with rfl | hm2
        · left; linarith
        · right; exact hm2

/-- The value of `listMinQ` on a nonempty list is the element that bounds all others
from below. -/
theorem listMinQ_eq_of (l : List ℚ) (a : ℚ) (hmem : a ∈ l)
    (hlb : ∀ b ∈ l, a ≤ b) : listMinQ l = a := by
  cases l with
  | nil => cases hmem
  | cons x r =>
    simp only [listMinQ]
    have hx : a ≤ x := hlb x (List.mem_cons_self x r)
    refine foldl_if_min_eq r x a ?_ hx (fun b hb => hlb b (List.mem_cons_of_mem x hb))
    rcases List.mem_cons.mp hmem with rfl | hm
    · exact Or.inl rfl
    · exact Or.inr hm

/-- The value of `listMaxQ` on a nonempty list is the element that bounds all others
from above. -/
theorem listMaxQ_eq_of (l : List ℚ) (a : ℚ) (hmem : a ∈ l)
    (hub : ∀ b ∈ l, b ≤ a) : listMaxQ l = a := by
  cases l with
  | nil => cases hmem
  | cons x r =>
    simp only [listMaxQ]
    have hx : x ≤ a := hub x (List.mem_cons_self x r)
    refine foldl_if_max_eq r x a ?_ hx (fun b hb => hub b (List.mem_cons_of_mem x hb))
    rcases List.mem_cons.mp hmem with rfl | hm
    · exact Or.inl rfl
    · exact Or.inr hm

/-- Claim C4 (counterexample).  On a 2×2 grid, the box synthesized at tile
`(w/2, h/2) = (1, 1)` has its X/Z center (midpoint of its X and Z extents)
at `(1/2, -1/2)`, not at the world origin `(0, 0)` as the claim states. -/
theorem box_center_not_origin :
    (listMinQ ((add_box_at 2 2 1 1 (mkMesh "maze")).vertices.map Vertex.x) +
       listMaxQ ((add_box_at 2 2 1 1 (mkMesh "maze")).vertices.map Vertex.x)) / 2
      = 1 / 2 ∧
    (listMinQ ((add_box_at 2 2 1 1 (mkMesh "maze")).vertices.map Vertex.z) +
       listMaxQ ((add_box_at 2 2 1 1 (mkMesh "maze")).vertices.map Vertex.z)) / 2
      = -(1 / 2) ∧
    ¬ ((listMinQ ((add_box_at 2 2 1 1 (mkMesh "maze")).vertices.map Vertex.x) +
          listMaxQ ((add_box_at 2 2 1 1 (mkMesh "maze")).vertices.map Vertex.x)) / 2
        = 0) := by
  have hx : (add_box_at 2 2 1 1 (mkMesh "maze")).vertices.map Vertex.x
      = [1, 1, 1, 1, 0, 0, 0, 0] := by
    simp only [add_box_at, foldl_insertVertex_vertices, mkMesh, List.nil_append]
    simp only [boxverts, transformVert, box_scale, List.map_cons, List.map_nil]
    norm_num
  have hz : (add_box_at 2 2 1 1 (mkMesh "maze")).vertices.map Vertex.z
      = [-1, -1, 0, 0, -1, -1, 0, 0] := by
    simp only [add_box_at, foldl_insertVertex_vertices, mkMesh, List.nil_append]
    simp only [boxverts, transformVert, box_scale, List.map_cons, List.map_nil]
    norm_num
  rw [hx, hz]
  norm_num [listMinQ, listMaxQ]

/-- Claim C4 (amended).  `add_box_at` places the cube for tile `(x, y)` so
that it spans X from `(x - w/2)*scale` to `(x - w/2 + 1)*scale` and Z from
`(y - h/2 - 1)*scale` to `(y - h/2)*scale` (the appended vertices are given
explicitly); its X/Z center is therefore at
`((x - w/2)*scale + 1/2, (y - h/2)*scale - 1/2)`, half a tile off the
point the claim names — at tile `(w/2, h/2)` the center is `(1/2, -1/2)`,
not `(0, 0)`. -/
theorem add_box_at_placement (w h x y : Nat) (mesh : Mesh) :
    (add_box_at w h x y mesh).vertices = mesh.vertices ++ amended_box_verts w h x y ∧
    listMinQ ((amended_box_verts w h x y).map Vertex.x) = tile_off_x w x ∧
    listMaxQ ((amended_box_verts w h x y).map Vertex.x) = tile_off_x w x + 1 ∧
    listMinQ ((amended_box_verts w h x y).map Vertex.z) = tile_off_z h y - 1 ∧
    listMaxQ ((amended_box_verts w h x y).map Vertex.z) = tile_off_z h y ∧
    (listMinQ ((amended_box_verts w h x y).map Vertex.x) +
       listMaxQ ((amended_box_verts w h x y).map Vertex.x)) / 2
      = tile_off_x w x + 1 / 2 ∧
    (listMinQ ((amended_box_verts w h x y).map Vertex.z) +
       listMaxQ ((amended_box_verts w h x y).map Vertex.z)) / 2
      = tile_off_z h y - 1 / 2 := by
  have hminx : listMinQ ((amended_box_verts w h x y).map Vertex.x)
      = tile_off_x w x := by
    simp only [amended_box_verts, List.map_cons, List.map_nil]
    refine listMinQ_eq_of _ _ (by simp) ?_
    intro b hb
    simp only [List.mem_cons, List.not_mem_nil, or_false] at hb
    rcases hb with rfl | rfl | rfl | rfl | rfl | rfl | rfl | rfl <;> linarith
  have hmaxx : listMaxQ ((amended_box_verts w h x y).map Vertex.x)
      = tile_off_x w x + 1 := by
    simp only [amended_box_verts, List.map_cons, List.map_nil]
    refine listMaxQ_eq_of _ _ (by simp) ?_
    intro b hb
    simp only [List.mem_cons, List.not_mem_nil, or_false] at hb
    rcases hb with rfl | rfl | rfl | rfl | rfl | rfl | rfl | rfl <;> linarith
  have hminz : listMinQ ((amended_box_verts w h x y).map Vertex.z)
      = tile_off_z h y - 1 := by
    simp only [amended_box_verts, List.map_cons, List.map_nil]
    refine listMinQ_eq_of _ _ (by simp) ?_
    intro b hb
    simp only [List.mem_cons, List.not_mem_nil, or_false] at hb
    rcases hb with rfl | rfl | rfl | rfl | rfl | rfl | rfl | rfl <;> linarith
  have hmaxz : listMaxQ ((amended_box_verts w h x y).map Vertex.z)
      = tile_off_z h y := by
    simp only [amended_box_verts, List.map_cons, List.map_nil]
    refine listMaxQ_eq_of _ _ (by simp) ?_
    intro b hb
    simp only [List.mem_cons, List.not_mem_nil, or_false] at hb
    rcases hb with rfl | rfl | rfl | rfl | rfl | rfl | rfl | rfl <;> linarith
  refine ⟨?_, hminx, hmaxx, hminz, hmaxz, by rw [hminx, hmaxx]; ring,
    by rw [hminz, hmaxz]; ring⟩
  · simp only [add_box_at, foldl_insertVertex_vertices]
    simp only [boxverts, amended_box_verts, List.map_cons, List.map_nil,
      transformVert, box_scale, tile_off_x, tile_off_z]
    norm_num
    constructor <;> ring

/-- Claim C8 (confirmed).  With floor emission enabled, after the full tile
scan the floor sub-mesh holds exactly one quad: 4 vertices and 2 triangles
(`rectidx` pattern at base 0), every vertex at Y equal to the maze
sub-mesh's bounding-box min-Y, with X/Z corners taken from the maze
bounding box's min/max X and Z (its Y extent unused). -/
theorem floor_quad_from_maze_bbox (lines : List (List Nat)) (zero ce : Bool) :
    (buildScene lines zero true ce).floor.vertices =
      [⟨(buildScene lines zero true ce).maze.bbox.bmax.x,
        (buildScene lines zero true ce).maze.bbox.bmin.y,
        (buildScene lines zero true ce).maze.bbox.bmax.z⟩,
       ⟨(buildScene lines zero true ce).maze.bbox.bmax.x,
        (buildScene lines zero true ce).maze.bbox.bmin.y,
        (buildScene lines zero true ce).maze.bbox.bmin.z⟩,
       ⟨(buildScene lines zero true ce).maze.bbox.bmin.x,
        (buildScene lines zero true ce).maze.bbox.bmin.y,
        (buildScene lines zero true ce).maze.bbox.bmin.z⟩,
       ⟨(buildScene lines zero true ce).maze.bbox.bmin.x,
        (buildScene lines zero true ce).maze.bbox.bmin.y,
        (buildScene lines zero true ce).maze.bbox.bmax.z⟩] ∧
    (buildScene lines zero true ce).floor.indeces = [0, 1, 3, 1, 2, 3] ∧
    (buildScene lines zero true ce).floor.vertices.length = 4 ∧
    (buildScene lines zero true ce).floor.indeces.length = 6 := by
  refine ⟨?_, ?_, ?_, ?_⟩ <;>
    simp [buildScene, add_bbox_plane, mkMesh, rect_idx, box_scale]

theorem faceLines_eq_triples (base : Nat) :
    ∀ l : List Nat, faceLines base l = (triples l).map
      (fun t => ObjLine.face (1 + base + t.1) (1 + base + t.2.1) (1 + base + t.2.2))
  | [] => rfl
  | [_] => rfl
  | [_, _] => rfl
  | a :: b :: c :: rest => by
    simp only [faceLines, triples, List.map_cons]
    exact congrArg _ (faceLines_eq_triples base rest)

theorem write_mesh_eq (m : Mesh) (t : Nat) :
    write_mesh m t = (claim_block m t, t + m.vertices.length) := by
  by_cases hc : m.vertices.length = 0 <;>
    simp [write_mesh, claim_block, hc, faceLines_eq_triples]

/-- Claim C6 (confirmed).  The text mesh output is the header line followed
by the object blocks of the four sub-meshes in the fixed order maze,
houses, floor, ceiling; an empty sub-mesh contributes no block and nothing
to the running vertex offset, and every face line of a non-empty sub-mesh
writes its indices as `1 + (sum of the vertex counts of the previously
written sub-meshes) + local index`. -/
theorem write_map_obj_blocks (s : Scene) :
    write_map_obj s = ObjLine.header ::
      (claim_block s.maze 0
       ++ claim_block s.houses s.maze.vertices.length
       ++ claim_block s.floor (s.maze.vertices.length + s.houses.vertices.length)
       ++ claim_block s.ceiling
           (s.maze.vertices.length + s.houses.vertices.length
            + s.floor.vertices.length)) := by
  simp [write_map_obj, write_mesh_eq, Nat.add_assoc]

/-! Length preservation through the loader and the scan (for the tilemap
format claim). -/

theorem storeBytes_length :
    ∀ (bs buf : List Nat) (idx : Nat), (storeBytes buf idx bs).length = buf.length
  | [], _, _ => rfl
  | b :: bs, buf, idx => by
    rw [storeBytes, storeBytes_length bs]
    simp

theorem pass2_length (w : Nat) :
    ∀ (lines : List (List Nat)) (buf : List Nat) (idx : Nat),
      (pass2 w buf idx lines).length = buf.length
  | [], _, _ => rfl
  | l :: ls, buf, idx => by
    rw [pass2]
    split
    · exact pass2_length w ls buf idx
    · rw [pass2_length w ls, storeBytes_length]

/-- The loader invariant `data.length = w * h`. -/
theorem load_maze_data_length (lines : List (List Nat)) :
    (load_maze lines).data.length = (load_maze lines).w * (load_maze lines).h := by
  simp [load_maze, pass2_length]

theorem scanCell_grid (zero : Bool) (st : MazeGrid × Mesh × Mesh) (c : Nat × Nat) :
    (scanCell zero st c).1.w = st.1.w ∧ (scanCell zero st c).1.h = st.1.h ∧
    (scanCell zero st c).1.data.length = st.1.data.length := by
  simp only [scanCell]
  split_ifs <;> simp

theorem foldl_scanCell_grid (zero : Bool) :
    ∀ (cs : List (Nat × Nat)) (st : MazeGrid × Mesh × Mesh),
      (cs.foldl (scanCell zero) st).1.w = st.1.w ∧
      (cs.foldl (scanCell zero) st).1.h = st.1.h ∧
      (cs.foldl (scanCell zero) st).1.data.length = st.1.data.length
  | [], st => ⟨rfl, rfl, rfl⟩
  | c :: cs, st => by
    obtain ⟨hw, hh, hd⟩ := foldl_scanCell_grid zero cs (scanCell zero st c)
    obtain ⟨hw1, hh1, hd1⟩ := scanCell_grid zero st c
    exact ⟨by rw [List.foldl_cons, hw, hw1], by rw [List.foldl_cons, hh, hh1],
      by rw [List.foldl_cons, hd, hd1]⟩

/-- Claim C9 (confirmed).  The binary tilemap is exactly the 4 bytes of the
`int32` width, the 4 bytes of the `int32` height, then the `w*h` raw tile
bytes of the grid buffer — 8 + w*h bytes total, nothing before, between or
after. -/
theorem tilemap_format (lines : List (List Nat)) (zero fl ce : Bool) :
    write_tilemap (buildScene lines zero fl ce).grid =
      int32le (buildScene lines zero fl ce).grid.w ++
        int32le (buildScene lines zero fl ce).grid.h ++
        (buildScene lines zero fl ce).grid.data ∧
    (buildScene lines zero fl ce).grid.data.length =
      (buildScene lines zero fl ce).grid.w * (buildScene lines zero fl ce).grid.h ∧
    (write_tilemap (buildScene lines zero fl ce).grid).length =
      8 + (buildScene lines zero fl ce).grid.w * (buildScene lines zero fl ce).grid.h ∧
    (write_tilemap (buildScene lines zero fl ce).grid).drop 8 =
      (buildScene lines zero fl ce).grid.data := by
  have hg : (buildScene lines zero fl ce).grid = (runScan zero (load_maze lines)).1 := rfl
  obtain ⟨hw, hh, hd⟩ := foldl_scanCell_grid zero
    (cells (load_maze lines).w (load_maze lines).h)
    ((load_maze lines), mkMesh "maze", mkMesh "houses")
  have hlen : (buildScene lines zero fl ce).grid.data.length =
      (buildScene lines zero fl ce).grid.w * (buildScene lines zero fl ce).grid.h := by
    rw [hg]
    show ((cells (load_maze lines).w (load_maze lines).h).foldl (scanCell zero)
        ((load_maze lines), mkMesh "maze", mkMesh "houses")).1.data.length =
      ((cells (load_maze lines).w (load_maze lines).h).foldl (scanCell zero)
        ((load_maze lines), mkMesh "maze", mkMesh "houses")).1.w *
      ((cells (load_maze lines).w (load_maze lines).h).foldl (scanCell zero)
        ((load_maze lines), mkMesh "maze", mkMesh "houses")).1.h
    rw [hd, hw, hh]
    exact load_maze_data_length lines
  refine ⟨rfl, hlen, ?_, ?_⟩
  · simp [write_tilemap, int32le, hlen]
    omega
  · show ((int32le (buildScene lines zero fl ce).grid.w ++
        int32le (buildScene lines zero fl ce).grid.h) ++
        (buildScene lines zero fl ce).grid.data).drop 8 =
      (buildScene lines zero fl ce).grid.data
    exact List.drop_left' (by simp [int32le])

/-- Claim C10 (confirmed).  When the input path cannot be opened,
`main_run` exits non-zero, reports exactly one diagnostic carrying the path
and the OS error reason, and writes neither the tilemap nor the mesh file,
for every flag configuration. -/
theorem load_failure_aborts (path reason : String) (wt zero fl ce : Bool) :
    (main_run none path reason wt zero fl ce).exitCode ≠ 0 ∧
    (main_run none path reason wt zero fl ce).errors = [ErrMsg.loadError path reason] ∧
    (main_run none path reason wt zero fl ce).tilemap = none ∧
    (main_run none path reason wt zero fl ce).obj = none := by
  refine ⟨?_, rfl, rfl, rfl⟩
  simp [main_run]

/-! Lemmas for the loader claim: behaviour of both passes on well-formed
(newline-terminated, NUL-free) lines. -/

theorem strlen_append_newline :
    ∀ body : List Nat, (∀ b ∈ body, b ≠ 0) →
      strlen (body ++ [10]) = body.length + 1
  | [], _ => rfl
  | b :: bs, h => by
    have hb : (b != 0) = true := by
      simpa using h b (List.mem_cons_self b bs)
    have ih := strlen_append_newline bs (fun x hx => h x (List.mem_cons_of_mem b hx))
    simp only [strlen, List.cons_append, List.takeWhile_cons, hb, if_true,
      List.length_cons] at ih ⊢
    omega

/-- On a well-formed line, the loader's skip test reduces to the line
beginning with `';'`; `strlen` sees the whole line; and the copied prefix
is exactly the newline-trimmed content. -/
theorem good_line_facts (l : List Nat) (hne : l ≠ []) (hlast : l.getLast? = some 10)
    (hbody : ∀ b ∈ l.dropLast, b ≠ 0 ∧ b ≠ 10) :
    strlen l = l.dropLast.length + 1 ∧
    line_skipped l = (l.head? == some 59) ∧
    l.take (strlen l - 1) = l.dropLast := by
  obtain ⟨body, rfl⟩ : ∃ body, l = body ++ [10] := by
    refine ⟨l.dropLast, ?_⟩
    have h1 := List.dropLast_append_getLast hne
    have h2 : l.getLast hne = 10 := by
      rw [List.getLast?_eq_getLast l hne] at hlast
      exact Option.some.inj hlast
    rw [← h2]
    exact h1.symm
  simp only [List.dropLast_concat] at hbody ⊢
  have hstr : strlen (body ++ [10]) = body.length + 1 :=
    strlen_append_newline body (fun b hb => (hbody b hb).1)
  refine ⟨hstr, ?_, ?_⟩
  · cases body with
    | nil => decide
    | cons b bs =>
      have hb0 : ¬ (b = 0) := (hbody b (List.mem_cons_self b bs)).1
      simp [line_skipped, hb0]
  · rw [hstr]
    simp [List.take_left]

theorem pass1_eq :
    ∀ lines : List (List Nat), goodLines lines → ∀ mw mh : Nat,
      pass1 mw mh lines =
        ((trimmed_rows lines).foldl
           (fun acc r => if r.length > acc then r.length else acc) mw,
         mh + (trimmed_rows lines).length)
  | [], _, mw, mh => by simp [pass1, trimmed_rows]
  | l :: ls, H, mw, mh => by
    have hl := H l (List.mem_cons_self l ls)
    have Hls : goodLines ls := fun x hx => H x (List.mem_cons_of_mem l hx)
    obtain ⟨hstr, hskip, _⟩ := good_line_facts l hl.1 hl.2.1 hl.2.2
    rw [pass1, hskip]
    by_cases hc : l.head? = some 59
    · have hrows : trimmed_rows (l :: ls) = trimmed_rows ls := by
        simp [trimmed_rows, List.filter_cons, hc]
      simp only [hc, beq_self_eq_true, if_true, hrows]
      exact pass1_eq ls Hls mw mh
    · have hbeq : (l.head? == some 59) = false := by
        simpa using hc
      have hrows : trimmed_rows (l :: ls) = l.dropLast :: trimmed_rows ls := by
        simp [trimmed_rows, List.filter_cons, hc]
      have harg : (if strlen l - 1 > mw then strlen l - 1 else mw)
          = (if l.dropLast.length > mw then l.dropLast.length else mw) := by
        rw [hstr]
        simp only [Nat.add_sub_cancel]
      rw [hbeq, if_neg Bool.false_ne_true, harg, hrows,
        pass1_eq ls Hls (if l.dropLast.length > mw then l.dropLast.length else mw)
          (mh + 1)]
      simp only [List.foldl_cons, List.length_cons, Prod.mk.injEq, true_and]
      omega

theorem pass2_eq :
    ∀ lines : List (List Nat), goodLines lines → ∀ (w : Nat) (buf : List Nat) (idx : Nat),
      pass2 w buf idx lines = fill_rows w buf idx (trimmed_rows lines)
  | [], _, w, buf, idx => by simp [pass2, trimmed_rows, fill_rows]
  | l :: ls, H, w, buf, idx => by
    have hl := H l (List.mem_cons_self l ls)
    have Hls : goodLines ls := fun x hx => H x (List.mem_cons_of_mem l hx)
    obtain ⟨_, hskip, htake⟩ := good_line_facts l hl.1 hl.2.1 hl.2.2
    rw [pass2, hskip]
    by_cases hc : l.head? = some 59
    · have hrows : trimmed_rows (l :: ls) = trimmed_rows ls := by
        simp [trimmed_rows, List.filter_cons, hc]
      simp only [hc, beq_self_eq_true, if_true, hrows]
      exact pass2_eq ls Hls w buf idx
    · have hbeq : (l.head? == some 59) = false := by
        simpa using hc
      have hrows : trimmed_rows (l :: ls) = l.dropLast :: trimmed_rows ls := by
        simp [trimmed_rows, List.filter_cons, hc]
      rw [hbeq, if_neg Bool.false_ne_true, htake, hrows, fill_rows,
        pass2_eq ls Hls w (storeBytes buf idx l.dropLast) (idx + w)]

theorem set_append_cons (b : Nat) :
    ∀ (A t : List Nat) (x : Nat), (A ++ x :: t).set A.length b = A ++ b :: t
  | [], _, _ => rfl
  | a :: A, t, x => by
    simp only [List.cons_append, List.length_cons, List.set_cons_succ,
      set_append_cons b A t x]

theorem storeBytes_fill :
    ∀ (bs A : List Nat) (m : Nat), bs.length ≤ m →
      storeBytes (A ++ List.replicate m 0) A.length bs
        = A ++ (bs ++ List.replicate (m - bs.length) 0)
  | [], A, m, _ => by simp [storeBytes]
  | b :: bs, A, m, h => by
    cases m with
    | zero => simp at h
    | succ m =>
      rw [storeBytes, List.replicate_succ, set_append_cons]
      have hsplit : A ++ b :: List.replicate m 0
          = (A ++ [b]) ++ List.replicate m 0 := by simp
      have hlen : A.length + 1 = (A ++ [b]).length := by simp
      rw [hsplit, hlen,
        storeBytes_fill bs (A ++ [b]) m (by simpa using h)]
      simp [Nat.succ_sub_succ]

theorem fill_rows_spec (w : Nat) :
    ∀ (rows : List (List Nat)) (A : List Nat), (∀ r ∈ rows, r.length ≤ w) →
      fill_rows w (A ++ List.replicate (w * rows.length) 0) A.length rows
        = A ++ (rows.map (padRow w)).flatten
  | [], A, _ => by simp [fill_rows]
  | r :: rs, A, h => by
    have hr : r.length ≤ w := h r (List.mem_cons_self r rs)
    have hrs : ∀ q ∈ rs, q.length ≤ w := fun q hq => h q (List.mem_cons_of_mem r hq)
    have hm : w * (r :: rs).length = w + w * rs.length := by
      simp [List.length_cons]
      ring
    rw [hm, List.replicate_add, ← List.append_assoc, fill_rows]
    have hstore : storeBytes ((A ++ List.replicate w 0) ++ List.replicate (w * rs.length) 0)
        A.length r
        = (A ++ padRow w r) ++ List.replicate (w * rs.length) 0 := by
      rw [List.append_assoc, ← List.replicate_add,
        storeBytes_fill r A (w + w * rs.length) (by omega)]
      have hcut : w + w * rs.length - r.length = (w - r.length) + w * rs.length := by
        omega
      rw [hcut, List.replicate_add]
      simp [padRow]
    have hpadlen : (A ++ padRow w r).length = A.length + w := by
      simp [padRow]
      omega
    rw [hstore, ← hpadlen,
      fill_rows_spec w rs (A ++ padRow w r) hrs]
    simp

theorem le_foldl_max :
    ∀ (rows : List (List Nat)) (a : Nat),
      a ≤ rows.foldl (fun acc r => if r.length > acc then r.length else acc) a
  | [], a => Nat.le_refl a
  | r :: rs, a => by
    refine Nat.le_trans ?_ (le_foldl_max rs (if r.length > a then r.length else a))
    split <;> omega

theorem mem_le_foldl_max :
    ∀ (rows : List (List Nat)) (a : Nat) (r : List Nat), r ∈ rows →
      r.length ≤ rows.foldl (fun acc q => if q.length > acc then q.length else acc) a
  | [], _, r, hmem => absurd hmem (List.not_mem_nil r)
  | q :: rs, a, r, hmem => by
    rcases List.mem_cons.mp hmem with rfl | hm
    · refine Nat.le_trans ?_ (le_foldl_max rs (if r.length > a then r.length else a))
      split <;> omega
    · exact mem_le_foldl_max rs (if q.length > a then q.length else a) r hm

/-- Claim C3 (counterexample).  On the input `"*\n\n*\n"` — a data line, a
blank line, a data line — the code does not skip the blank line: the loaded
height is 3 (the blank line contributes a zero-filled row), while the claim
says the blank line is skipped and the height is 2. -/
theorem blank_line_counted :
    (load_maze [[42, 10], [10], [42, 10]]).h = 3 ∧
    claim_h [[42, 10], [10], [42, 10]] = 2 ∧
    (load_maze [[42, 10], [10], [42, 10]]).data = [42, 0, 42] := by
  decide

/-- Claim C3 (amended).  For a well-formed input (every line newline
terminated, no NUL bytes), the loader skips exactly the lines beginning
with `';'` — a blank line is not skipped: it counts toward the height as a
zero-length row — and produces `w` = maximum trimmed length over the kept
lines, `h` = number of kept lines, with each kept line copied into its row
from column 0 and shorter rows zero-padded on the right to width `w`. -/
theorem load_maze_eq_amended (lines : List (List Nat)) (H : goodLines lines) :
    load_maze lines = load_maze_amended lines := by
  have h1 := pass1_eq lines H 0 0
  have h2 := pass2_eq lines H (row_w (trimmed_rows lines))
    (List.replicate (row_w (trimmed_rows lines) * (trimmed_rows lines).length) 0) 0
  have hfill := fill_rows_spec (row_w (trimmed_rows lines)) (trimmed_rows lines) []
    (fun r hr => mem_le_foldl_max (trimmed_rows lines) 0 r hr)
  simp only [List.nil_append, List.length_nil] at hfill
  unfold load_maze load_maze_amended
  rw [h1]
  simp only [Nat.zero_add]
  rw [show (trimmed_rows lines).foldl
        (fun acc r => if r.length > acc then r.length else acc) 0
      = row_w (trimmed_rows lines) from rfl]
  rw [h2, hfill]

/-- Witness for `load_maze_eq_amended`: the input `";hi\n abc\n abcde\n yz\n"`
(a comment line and data lines of lengths 3, 5, 2) is well formed; the
loader agrees with the amended description and yields `w = 5`, `h = 3` with
right-padded rows. -/
theorem load_maze_eq_amended_witness :
    load_maze [[59, 104, 105, 10], [97, 98, 99, 10],
        [97, 98, 99, 100, 101, 10], [121, 122, 10]]
      = load_maze_amended [[59, 104, 105, 10], [97, 98, 99, 10],
        [97, 98, 99, 100, 101, 10], [121, 122, 10]] ∧
    load_maze [[59, 104, 105, 10], [97, 98, 99, 10],
        [97, 98, 99, 100, 101, 10], [121, 122, 10]]
      = ⟨5, 3, [97, 98, 99, 0, 0, 97, 98, 99, 100, 101, 121, 122, 0, 0, 0]⟩ :=
  ⟨load_maze_eq_amended _ (by decide), by decide⟩

end Maze2Mesh
